import Mathlib

/-!
Shallow embedding of the variant-annotation and QC reporting logic of the
mpx-vidrl repository (files `report/report.py` and `mpx_assembly/report.py`).

Numeric conventions: Python ints are modelled as `ℤ` (or `ℕ` for lengths and
counts), Python floats as `ℚ` (exact rational arithmetic standing in for IEEE
doubles), Python `None` / raised exceptions as `Option`.  Python strings are
`List Char` where indexing and slicing matter, `String` where they are only
compared for equality.
-/

namespace MpxVidrl

/-! ## Variant rows and the low-frequency/low-depth threshold ladder

`decorate_variants` (report/report.py, lines 456-468) parses `low_freq_depth`
into `(freq, min_depth)` pairs, sorts them by the frequency component and then,
for each pair in turn, drops from the current table every variant with
`ALT_FREQ <= freq and ALT_DP < min_depth`.  We model the table as a list of
rows and each pass as a `List.filter`; the string parsing/sorting step is
abstracted to the resulting sorted list of rational/integer pairs. -/

/-- One row of the combined iVar variant table, restricted to the columns the
annotation and filtering logic reads.  `annot` stands in for the annotation
columns retained at population level (APOBEC3, PATTERN, CONTEXT, NS, MASK,
...), `altFreq`/`altDp` for `ALT_FREQ`/`ALT_DP`. -/
structure VariantRow where
  pos : ℤ
  ref : String
  alt : String
  sample : String
  altFreq : ℚ
  altDp : ℤ
  annot : String
deriving DecidableEq

/-- The drop condition of one ladder pass:
`variant["ALT_FREQ"] <= float(freq) and variant["ALT_DP"] < int(min_depth)`. -/
def dropVariant (t : ℚ × ℤ) (v : VariantRow) : Bool :=
  decide (v.altFreq ≤ t.1) && decide (v.altDp < t.2)

/-- The successive filtering loop of `decorate_variants`: for each
`(freq, min_depth)` pair in the given (sorted) order, drop every row of the
current table satisfying `dropVariant`.  Iterating over a copy and calling
`DataFrame.drop` on matching indices is exactly a filter keeping the
non-matching rows. -/
def applyThresholds (settings : List (ℚ × ℤ)) (vs : List VariantRow) : List VariantRow :=
  settings.foldl (fun acc t => acc.filter (fun v => ! dropVariant t v)) vs

/-- Unfolding the ladder: a row survives all passes iff it fails the drop
condition of every threshold pair, independently of the order of passes. -/
theorem applyThresholds_eq_filter (settings : List (ℚ × ℤ)) (vs : List VariantRow) :
    applyThresholds settings vs
      = vs.filter (fun v => settings.all (fun t => ! dropVariant t v)) := by
  induction settings generalizing vs with
  | nil => simp [applyThresholds]
  | cons t ts ih =>
      show applyThresholds ts (vs.filter fun v => ! dropVariant t v) = _
      rw [ih, List.filter_filter]
      refine List.filter_congr ?_
      intro v _
      simp [List.all_cons, Bool.and_comm]

/-- Helper: the surviving set is invariant under permuting the threshold
pairs, because each pass drops rows by a row-local predicate. -/
theorem applyThresholds_perm (vs : List VariantRow) (s1 s2 : List (ℚ × ℤ))
    (hp : s1.Perm s2) : applyThresholds s1 vs = applyThresholds s2 vs := by
  rw [applyThresholds_eq_filter, applyThresholds_eq_filter]
  refine List.filter_congr ?_
  intro v _
  have h : (s1.all fun t => ! dropVariant t v) = true
      ↔ (s2.all fun t => ! dropVariant t v) = true := by
    simp only [List.all_eq_true]
    constructor
    · intro h t ht
      exact h t (hp.mem_iff.mpr ht)
    · intro h t ht
      exact h t (hp.mem_iff.mp ht)
  exact Bool.coe_iff_coe.mp h

/-- The concrete variant of the spec's worked example: allele frequency 0.03,
depth 250 (other fields arbitrary). -/
def exampleVariant : VariantRow :=
  ⟨1, "C", "T", "sample1", 3/100, 250, ""⟩

/-- C1: for every variant table and every (sorted ascending by frequency)
sequence of `(max_frequency, min_depth)` threshold pairs applied in that order
over the successively shrinking table, a variant survives the ladder exactly
when at no pair its allele frequency is ≤ the pair's frequency with depth <
the pair's minimum depth; and in the worked example with thresholds
`[(0.01, 1000), (0.05, 300)]`, a variant with frequency 0.03 and depth 250
survives the first pair but is dropped once the second pair is applied. -/
theorem threshold_ladder_filter (settings : List (ℚ × ℤ)) (vs : List VariantRow)
    (hsorted : settings.Sorted (fun a b => a.1 ≤ b.1)) :
    (∀ v, v ∈ applyThresholds settings vs
        ↔ v ∈ vs ∧ ∀ t ∈ settings, ¬(v.altFreq ≤ t.1 ∧ v.altDp < t.2)) ∧
    exampleVariant ∈ applyThresholds [((1:ℚ)/100, 1000)] [exampleVariant] ∧
    applyThresholds [((1:ℚ)/100, 1000), ((5:ℚ)/100, 300)] [exampleVariant] = [] := by
  refine ⟨?_, ?_, ?_⟩
  · intro v
    rw [applyThresholds_eq_filter]
    simp only [List.mem_filter, List.all_eq_true, dropVariant, Bool.not_eq_true',
      Bool.and_eq_false_iff, decide_eq_false_iff_not, not_lt, not_le, not_and]
    refine and_congr_right fun _ => ?_
    constructor
    · intro h t ht hfreq
      rcases h t ht with h1 | h1
      · exact absurd hfreq (not_le.mpr h1)
      · exact h1
    · intro h t ht
      by_cases hfreq : v.altFreq ≤ t.1
      · exact Or.inr (h t ht hfreq)
      · exact Or.inl (lt_of_not_le hfreq)
  · norm_num [applyThresholds, dropVariant, exampleVariant, List.filter]
  · norm_num [applyThresholds, dropVariant, exampleVariant, List.filter]

/-- Witness for C1 at the spec's concrete example. -/
theorem threshold_ladder_filter_witness :
    exampleVariant ∈ applyThresholds [((1:ℚ)/100, 1000)] [exampleVariant] ∧
    applyThresholds [((1:ℚ)/100, 1000), ((5:ℚ)/100, 300)] [exampleVariant] = [] :=
  (threshold_ladder_filter [((1:ℚ)/100, 1000), ((5:ℚ)/100, 300)] [exampleVariant]
      (by norm_num [List.sorted_cons])).2

/-- The claim of order sensitivity, as stated: some variant table and some
reordering of the same threshold pairs produce different surviving sets. -/
def orderSensitiveLadder : Prop :=
  ∃ (vs : List VariantRow) (s1 s2 : List (ℚ × ℤ)),
    s1.Perm s2 ∧ applyThresholds s1 vs ≠ applyThresholds s2 vs

/-- C9 counterexample: the threshold-ladder filter is NOT order-sensitive.
Each pass drops rows by a predicate depending only on that row, so the
surviving set is the same under every ordering of the pairs. -/
theorem ladder_not_order_sensitive : ¬ orderSensitiveLadder := by
  rintro ⟨vs, s1, s2, hp, hne⟩
  exact hne (applyThresholds_perm vs s1 s2 hp)

/-- C9 amended: the threshold-ladder filter is order-insensitive: applying the
same `(max_frequency, min_depth)` pairs in any order yields the same set of
surviving variants. -/
theorem ladder_order_insensitive (vs : List VariantRow) (s1 s2 : List (ℚ × ℤ))
    (hp : s1.Perm s2) : applyThresholds s1 vs = applyThresholds s2 vs :=
  applyThresholds_perm vs s1 s2 hp

/-- Witness for C9 amended: swapping the two example threshold pairs leaves
the result unchanged. -/
theorem ladder_order_insensitive_witness :
    applyThresholds [((1:ℚ)/100, 1000), ((5:ℚ)/100, 300)] [exampleVariant]
      = applyThresholds [((5:ℚ)/100, 300), ((1:ℚ)/100, 1000)] [exampleVariant] :=
  ladder_order_insensitive [exampleVariant] _ _
    (List.Perm.swap ((5:ℚ)/100, 300) ((1:ℚ)/100, 1000) [])

/-! ## Masked-region annotation

`annotate_masked_regions` (report/report.py, lines 547-571) reads the mask
file into rows `(start, end, annotation, source)` and, per variant with a
non-null `POS`, loops over ALL regions, setting `masked/annotation/source`
whenever `int(variant["POS"]) in range(start, end + 1)`.  There is no `break`:
a later matching region overwrites an earlier one. -/

/-- One row of the 1-indexed mask file.  `stop` is the `end` column (Lean
keyword), `label` the `annotation` column. -/
structure MaskRegion where
  start : ℤ
  stop : ℤ
  label : String
  source : String
deriving DecidableEq

/-- `int(variant["POS"]) in range(start, end + 1)`, i.e. `start ≤ p < end+1`. -/
def posInMaskRange (r : MaskRegion) (p : ℤ) : Bool :=
  decide (r.start ≤ p) && decide (p < r.stop + 1)

/-- The inner loop of `annotate_masked_regions` for a single variant position:
fold over the regions in file order, every matching region overwriting the
`(masked, annotation, source)` triple. -/
def annotateMaskedPos (regions : List MaskRegion) (p : ℤ) :
    Bool × Option String × Option String :=
  regions.foldl
    (fun acc r => if posInMaskRange r p then (true, some r.label, some r.source) else acc)
    (false, none, none)

/-- Per-variant mask annotation including the null-position guard
(`if variant["POS"] is not None`): a null position yields
`[False, None, None]`. -/
def annotate_masked_variant (regions : List MaskRegion) (pos : Option ℤ) :
    Bool × Option String × Option String :=
  match pos with
  | none => (false, none, none)
  | some p => annotateMaskedPos regions p

/-- Helper: a fold step over regions none of which match leaves the
accumulator unchanged. -/
theorem annotateMaskedPos_foldl_const (p : ℤ) (l : List MaskRegion)
    (acc : Bool × Option String × Option String)
    (h : ∀ r ∈ l, posInMaskRange r p = false) :
    l.foldl
      (fun acc r => if posInMaskRange r p then (true, some r.label, some r.source) else acc)
      acc = acc := by
  induction l generalizing acc with
  | nil => rfl
  | cons r rs ih =>
      have hr : posInMaskRange r p = false := h r (List.mem_cons_self r rs)
      simp only [List.foldl_cons, hr, Bool.false_eq_true, if_false]
      exact ih acc fun r' hr' => h r' (List.mem_cons_of_mem r hr')

/-- The claim's version of the overlap rule, for comparison: the FIRST
matching region in file order provides the annotation and source. -/
def annotateMaskedPosFirstMatch (regions : List MaskRegion) (p : ℤ) :
    Bool × Option String × Option String :=
  match regions.find? (fun r => posInMaskRange r p) with
  | some r => (true, some r.label, some r.source)
  | none => (false, none, none)

/-- C4 counterexample: with overlapping regions `(1,10,"a","s1")` then
`(5,15,"b","s2")` and variant position 7 (inside both), the recorded
annotation and source are those of the SECOND region in file order, not the
first as the claim states. -/
theorem mask_overlap_first_match_refuted :
    annotate_masked_variant
        [⟨1, 10, "a", "s1"⟩, ⟨5, 15, "b", "s2"⟩] (some 7)
      = (true, some "b", some "s2") ∧
    annotate_masked_variant
        [⟨1, 10, "a", "s1"⟩, ⟨5, 15, "b", "s2"⟩] (some 7)
      ≠ annotateMaskedPosFirstMatch
        [⟨1, 10, "a", "s1"⟩, ⟨5, 15, "b", "s2"⟩] 7 := by
  constructor
  · decide
  · decide

/-- C4 amended: for every variant with a non-null 1-based position and every
masked-region list in which two or more regions contain that position, the
mask annotation and source recorded are those of the LAST matching region in
file order (the loop has no break, so later matches overwrite earlier ones). -/
theorem mask_overlap_last_match_wins (pre mid : List MaskRegion) (r : MaskRegion)
    (p : ℤ) (hr : posInMaskRange r p = true)
    (hafter : ∀ r' ∈ mid, posInMaskRange r' p = false) :
    annotate_masked_variant (pre ++ r :: mid) (some p)
      = (true, some r.label, some r.source) := by
  show annotateMaskedPos (pre ++ r :: mid) p = _
  unfold annotateMaskedPos
  rw [List.foldl_append, List.foldl_cons, hr]
  simp only [if_true]
  exact annotateMaskedPos_foldl_const p mid _ hafter

/-- Witness for C4 amended: two overlapping regions, position 7 inside both;
the second (last matching) region's annotation and source are recorded. -/
theorem mask_overlap_last_match_wins_witness :
    annotate_masked_variant
        [⟨1, 10, "a", "s1"⟩, ⟨5, 15, "b", "s2"⟩] (some 7)
      = (true, some "b", some "s2") :=
  mask_overlap_last_match_wins [⟨1, 10, "a", "s1"⟩] [] ⟨5, 15, "b", "s2"⟩ 7
    (by decide) (by intro r' hr'; cases hr')

/-- C5: the membership test of a masked region is inclusive on both ends: a
position exactly equal to `start` or to `end` is marked masked, and a
position equal to `end + 1` is not matched by that region. -/
theorem mask_bounds_inclusive (r : MaskRegion) (h : r.start ≤ r.stop) :
    (annotate_masked_variant [r] (some r.start)).1 = true ∧
    (annotate_masked_variant [r] (some r.stop)).1 = true ∧
    (annotate_masked_variant [r] (some (r.stop + 1))).1 = false := by
  refine ⟨?_, ?_, ?_⟩ <;>
    simp only [annotate_masked_variant, annotateMaskedPos, List.foldl_cons, List.foldl_nil,
      posInMaskRange, Bool.and_eq_true, decide_eq_true_eq]
  · rw [if_pos (by omega)]
  · rw [if_pos (by omega)]
  · rw [if_neg (by omega)]

/-- Witness for C5 at the concrete region `(2, 5)`. -/
theorem mask_bounds_inclusive_witness :
    (annotate_masked_variant [⟨2, 5, "a", "s"⟩] (some 2)).1 = true ∧
    (annotate_masked_variant [⟨2, 5, "a", "s"⟩] (some 5)).1 = true ∧
    (annotate_masked_variant [⟨2, 5, "a", "s"⟩] (some 6)).1 = false :=
  mask_bounds_inclusive ⟨2, 5, "a", "s"⟩ (by decide)

/-! ## APOBEC3 classification

`decorate_variants` (report/report.py lines 399-410, identically
mpx_assembly/report.py lines 344-355) classifies each variant from the
reference sequence: for REF "C" / ALT "T" it inspects
`record.sequence[pos_seq - 1]`, for REF "G" / ALT "A" it inspects
`record.sequence[pos_seq + 1]`, comparing the `.capitalize()`d base to "T"
resp. "A".  Python indexing wraps around for small negative indices and
raises `IndexError` past the end; both are captured by `pyCharAt`, with
`none` modelling the raised exception. -/

/-- Python single-character indexing `s[i]`: in-range nonnegative indices read
directly, negative indices `-len ≤ i < 0` wrap to `s[len + i]`, anything else
raises (modelled as `none`). -/
def pyCharAt (s : List Char) (i : ℤ) : Option Char :=
  if 0 ≤ i then s[i.toNat]?
  else if 0 ≤ i + s.length then s[(i + s.length).toNat]?
  else none

/-- The APOBEC3 classification block of `decorate_variants` for one variant
row: reference sequence, 0-based position `pos_seq = POS - 1`, and the REF and
ALT column values.  Returns `none` when the flanking-base access raises
`IndexError`, otherwise `(apobec3, pattern)`.  The two guards are mutually
exclusive, so the sequential `if` statements of the source are an
`if/else if`. -/
def classifyAPOBEC3 (seq : List Char) (posSeq : ℤ) (ref alt : String) :
    Option (Bool × String) :=
  if ref = "C" ∧ alt = "T" then
    (pyCharAt seq (posSeq - 1)).map fun c =>
      if c.toUpper = 'T' then (true, "TC>TT") else (false, "other")
  else if ref = "G" ∧ alt = "A" then
    (pyCharAt seq (posSeq + 1)).map fun c =>
      if c.toUpper = 'A' then (true, "GA>AA") else (false, "other")
  else some (false, "other")

/-- Helper: in-range evaluation of `pyCharAt` at a natural index. -/
theorem pyCharAt_natCast (s : List Char) (n : ℕ) (h : n < s.length) :
    pyCharAt s (n : ℤ) = some (s.getD n ' ') := by
  unfold pyCharAt
  rw [if_pos (Int.natCast_nonneg n)]
  simp [List.getElem?_eq_getElem, h, List.getD_eq_getElem?_getD, Int.toNat_natCast]

/-- C2: for every reference sequence, 0-based position strictly inside it, and
REF/ALT values, the classifier returns a result, the pattern is one of
TC>TT / GA>AA / other, APOBEC3 is true with pattern TC>TT exactly when
REF = "C", ALT = "T" and the preceding reference base is `T`
(case-insensitively), true with pattern GA>AA exactly when REF = "G",
ALT = "A" and the following base is `A`, and the flag is false exactly when
the pattern is `other` (so every remaining case yields `(false, "other")`). -/
theorem apobec3_classification (seq : List Char) (pos : ℕ) (ref alt : String)
    (h1 : 1 ≤ pos) (h2 : pos + 1 < seq.length) :
    ∃ r, classifyAPOBEC3 seq (pos : ℤ) ref alt = some r ∧
      (r.2 = "TC>TT" ∨ r.2 = "GA>AA" ∨ r.2 = "other") ∧
      (r = (true, "TC>TT")
        ↔ ref = "C" ∧ alt = "T" ∧ (seq.getD (pos - 1) ' ').toUpper = 'T') ∧
      (r = (true, "GA>AA")
        ↔ ref = "G" ∧ alt = "A" ∧ (seq.getD (pos + 1) ' ').toUpper = 'A') ∧
      (r.1 = false ↔ r.2 = "other") := by
  have hprev : ((pos : ℤ) - 1) = ((pos - 1 : ℕ) : ℤ) := by omega
  have hnext : ((pos : ℤ) + 1) = ((pos + 1 : ℕ) : ℤ) := by omega
  have hprevlt : pos - 1 < seq.length := by omega
  unfold classifyAPOBEC3
  by_cases hCT : ref = "C" ∧ alt = "T"
  · rw [if_pos hCT, hprev, pyCharAt_natCast seq (pos - 1) hprevlt]
    by_cases hT : (seq[pos - 1]?.getD ' ').toUpper = 'T'
    · refine ⟨(true, "TC>TT"), ?_⟩
      simp [List.getD_eq_getElem?_getD, hT, hCT.1, hCT.2]
    · refine ⟨(false, "other"), ?_⟩
      simp [List.getD_eq_getElem?_getD, hT, hCT.1, hCT.2]
  · rw [if_neg hCT]
    by_cases hGA : ref = "G" ∧ alt = "A"
    · rw [if_pos hGA, hnext, pyCharAt_natCast seq (pos + 1) h2]
      by_cases hA : (seq[pos + 1]?.getD ' ').toUpper = 'A'
      · refine ⟨(true, "GA>AA"), ?_⟩
        simp [List.getD_eq_getElem?_getD, hA, hGA.1, hGA.2]
      · refine ⟨(false, "other"), ?_⟩
        simp [List.getD_eq_getElem?_getD, hA, hGA.1, hGA.2]
    · rw [if_neg hGA]
      refine ⟨(false, "other"), rfl, by simp, ?_, ?_, by simp⟩
      · simp only [Prod.mk.injEq, Bool.false_eq_true, false_and, false_iff]
        intro hcontra
        exact hCT ⟨hcontra.1, hcontra.2.1⟩
      · simp only [Prod.mk.injEq, Bool.false_eq_true, false_and, false_iff]
        intro hcontra
        exact hGA ⟨hcontra.1, hcontra.2.1⟩

/-- Witness for C2: sequence `TCG`, position 1, REF `C`, ALT `T` — the
preceding base is `T`, giving an APOBEC3 TC>TT call. -/
theorem apobec3_classification_witness :
    ∃ r, classifyAPOBEC3 ['T', 'C', 'G'] ((1 : ℕ) : ℤ) "C" "T" = some r ∧
      (r.2 = "TC>TT" ∨ r.2 = "GA>AA" ∨ r.2 = "other") ∧
      (r = (true, "TC>TT")
        ↔ "C" = "C" ∧ "T" = "T" ∧ (['T', 'C', 'G'].getD (1 - 1) ' ').toUpper = 'T') ∧
      (r = (true, "GA>AA")
        ↔ "C" = "G" ∧ "T" = "A" ∧ (['T', 'C', 'G'].getD (1 + 1) ' ').toUpper = 'A') ∧
      (r.1 = false ↔ r.2 = "other") :=
  apobec3_classification ['T', 'C', 'G'] 1 "C" "T" (by decide) (by decide)

/-- C10: for a variant with REF `G`, ALT `A` at the final base of the
reference (0-based position `len - 1`, i.e. 1-based POS = len), the
classifier reads `record.sequence[pos_seq + 1]`, one past the end, which
raises `IndexError` (modelled as `none`): the classifier is not total over
in-sequence positions. -/
theorem apobec3_end_position_index_error (seq : List Char) (h : 1 ≤ seq.length) :
    classifyAPOBEC3 seq ((seq.length : ℤ) - 1) "G" "A" = none := by
  unfold classifyAPOBEC3
  rw [if_neg (by simp), if_pos ⟨rfl, rfl⟩]
  have : ((seq.length : ℤ) - 1 + 1) = ((seq.length : ℕ) : ℤ) := by omega
  rw [this]
  unfold pyCharAt
  rw [if_pos (Int.natCast_nonneg _)]
  simp

/-- Witness for C10 on the single-base sequence `G`. -/
theorem apobec3_end_position_index_error_witness :
    classifyAPOBEC3 ['G'] ((['G'].length : ℤ) - 1) "G" "A" = none :=
  apobec3_end_position_index_error ['G'] (by decide)

/-! ## Context-sequence extraction

`get_context_sequence` (report/report.py lines 787-808, identically
mpx_assembly/report.py lines 434-456): clamp the window start at 0, clamp the
window end at `len(record.sequence) - 1`, and return
`sequence[start:vloc] + alt + sequence[vloc+1:end]`. -/

/-- Python slicing `s[a:b]` for nonnegative bounds: elements at indices
`a ≤ i < min b (len s)`. -/
def pySlice (s : List Char) (a b : ℕ) : List Char :=
  (s.take b).drop a

/-- `get_context_sequence`, on the sequence and the ALT string.  `vloc` is the
0-based variant position, `contextSize` the symmetric window.  Note the end
clamp compares against `len - 1`, not `len` (`if vloc + context_size + 1 >
len(record.sequence) - 1: context_end = len(record.sequence) - 1`).  The
start clamp `if vloc - context_size < 0: context_start = 0` is ℕ-truncated
subtraction. -/
def get_context_sequence (seq alt : List Char) (vloc contextSize : ℕ) : List Char :=
  let contextStart := vloc - contextSize
  let contextEnd :=
    if seq.length - 1 < vloc + contextSize + 1 then seq.length - 1
    else vloc + contextSize + 1
  pySlice seq contextStart vloc ++ alt ++ pySlice seq (vloc + 1) contextEnd

/-- The claim's contract for the context extractor, for comparison: the slice
over `[pos - w, pos + w + 1)` with the ALT base substituted at `pos`, the
interval clipped at the SEQUENCE boundaries, i.e. the end clipped at `len`. -/
def contextSpecClipped (seq alt : List Char) (pos w : ℕ) : List Char :=
  pySlice seq (pos - w) pos ++ alt ++ pySlice seq (pos + 1) (min (pos + w + 1) seq.length)

/-- C3 counterexample: on sequence `ABCD` with ALT `T`, position 2, window 1,
the code returns `BT` — the spec's boundary-clipped slice `[1, 4)` with the
substitution is `BTD`.  The end clamp to `len - 1` silently drops the final
base of the sequence, so the returned context is not the boundary-clipped
window. -/
theorem context_sequence_clip_refuted :
    get_context_sequence ['A', 'B', 'C', 'D'] ['T'] 2 1 = ['B', 'T'] ∧
    contextSpecClipped ['A', 'B', 'C', 'D'] ['T'] 2 1 = ['B', 'T', 'D'] ∧
    get_context_sequence ['A', 'B', 'C', 'D'] ['T'] 2 1
      ≠ contextSpecClipped ['A', 'B', 'C', 'D'] ['T'] 2 1 := by
  refine ⟨?_, ?_, ?_⟩ <;> decide

/-- C3 amended: the context extractor returns the slice over
`[pos - w, pos + w + 1)` with ALT substituted at `pos`, the start clipped at
0 but the end clipped at `len - 1` (one short of the sequence boundary): the
tail slice ends at `min (pos + w + 1) (len - 1)`, so the final base of the
sequence never appears in the tail of a context.  The returned string still
never crosses a sequence boundary, and at position 0 the returned context
starts at index 0. -/
theorem context_sequence_end_clamped (seq alt : List Char) (pos w : ℕ) :
    get_context_sequence seq alt pos w
      = pySlice seq (pos - w) pos ++ alt
          ++ pySlice seq (pos + 1) (min (pos + w + 1) (seq.length - 1)) := by
  unfold get_context_sequence
  by_cases h : seq.length - 1 < pos + w + 1
  · rw [if_pos h, Nat.min_eq_right (le_of_lt h)]
  · rw [if_neg h, Nat.min_eq_left (le_of_not_lt h)]

/-! ## Consensus completeness and per-sample QC metrics

`get_consensus_assembly_data` (report/report.py lines 115-128, identically
mpx_assembly/report.py lines 77-90) loads the single consensus sequence
uppercased, counts `N` bases, and computes
`round(100 - ((ncount / len(seq)) * 100), 6)`, with a `ZeroDivisionError`
swallowed into `None`.  Python's `round` is round-half-to-even, modelled
exactly over `ℚ`. -/

/-- Round a rational to the nearest integer, ties to the even integer
(Python's `round` on reals, idealised over `ℚ`). -/
def roundHalfEven (q : ℚ) : ℤ :=
  if q - ⌊q⌋ < 1/2 then ⌊q⌋
  else if (1:ℚ)/2 < q - ⌊q⌋ then ⌊q⌋ + 1
  else if 2 ∣ ⌊q⌋ then ⌊q⌋ else ⌊q⌋ + 1

/-- Python `round(q, ndigits)` for nonnegative `ndigits`. -/
def pyRound (q : ℚ) (ndigits : ℕ) : ℚ :=
  (roundHalfEven (q * (10:ℚ) ^ ndigits) : ℚ) / (10:ℚ) ^ ndigits

/-- `get_consensus_assembly_data` on the consensus sequence (the FASTA is
read with `uppercase=True`, so `N` counting is over the uppercased text).
Returns `(completeness, ncount)` with `completeness = None` exactly when the
division by `len(seq)` raises `ZeroDivisionError`. -/
def get_consensus_assembly_data (seq : List Char) : Option ℚ × ℕ :=
  let ncount := (seq.map Char.toUpper).count 'N'
  if seq.length = 0 then (none, ncount)
  else (some (pyRound (100 - ((ncount : ℚ) / (seq.length : ℚ)) * 100) 6), ncount)

/-- Helper: evaluation of the completeness branch for a nonempty sequence. -/
theorem get_consensus_eval (seq : List Char) (h : seq.length ≠ 0) :
    (get_consensus_assembly_data seq).1
      = some (pyRound
          (100 - (((seq.map Char.toUpper).count 'N' : ℚ) / (seq.length : ℚ)) * 100) 6) := by
  simp [get_consensus_assembly_data, h]

/-- Helper: the rounded completeness value of one `N` in three bases. -/
theorem pyRound_two_thirds_hundred : pyRound ((200 : ℚ) / 3) 6 = 66666667 / 1000000 := by
  have harg : ((200 : ℚ) / 3) * (10 : ℚ) ^ (6 : ℕ) = 200000000 / 3 := by norm_num
  have hfloor : ⌊((200000000 : ℚ) / 3)⌋ = 66666666 := by
    rw [Int.floor_eq_iff]
    norm_num
  unfold pyRound roundHalfEven
  rw [harg, hfloor]
  norm_num

/-- C7 counterexample: the sequence `NAA` has one `N` in three bases, so the
claim's formula gives `100 - (1/3)*100 = 200/3`, but the code rounds to six
decimal places and returns `66.666667 ≠ 200/3`. -/
theorem completeness_formula_refuted :
    (get_consensus_assembly_data ['N', 'A', 'A']).1 = some (66666667 / 1000000 : ℚ) ∧
    (get_consensus_assembly_data ['N', 'A', 'A']).1
      ≠ some ((100 : ℚ) - ((1 : ℚ) / 3) * 100) := by
  have h1 := get_consensus_eval ['N', 'A', 'A'] (by decide)
  have hc : ((['N', 'A', 'A'].map Char.toUpper).count 'N') = 1 := by decide
  have hlen : (['N', 'A', 'A'] : List Char).length = 3 := by decide
  rw [hc, hlen] at h1
  have harg : (100 : ℚ) - (((1 : ℕ) : ℚ) / ((3 : ℕ) : ℚ)) * 100 = 200 / 3 := by
    push_cast
    norm_num
  rw [harg, pyRound_two_thirds_hundred] at h1
  refine ⟨h1, ?_⟩
  rw [h1]
  intro hcontra
  rw [Option.some_inj] at hcontra
  norm_num at hcontra

/-- C7 amended: for a consensus sequence of positive length the computed
completeness is `100 - (N_count/length)*100` ROUNDED to six decimal places
(round-half-even); for a zero-length sequence the result is `None` rather
than a raised `ZeroDivisionError`. -/
theorem completeness_rounded (seq : List Char) :
    (get_consensus_assembly_data seq).1
      = if seq.length = 0 then none
        else some (pyRound
            (100 - (((seq.map Char.toUpper).count 'N' : ℚ) / (seq.length : ℚ)) * 100) 6) := by
  by_cases h : seq.length = 0 <;> simp [get_consensus_assembly_data, h]

/-! ## Per-sample scalar extractors and the QC row builder

`quality_control_consensus` (report/report.py lines 168-250) globs companion
files per sample and looks them up with `dict.get`, so each of `qc_data`,
`samtools`, `depletion` may be `None` while `assembly` always exists.  The
loop body (lines 213-234) then calls the four extractors.  `get_fastp_data`,
`get_nanoq_data` and `get_host_reads` each begin with `if file is None:
return 0, 0` (resp. `return 0`); `get_samtools_data` (lines 107-112) has no
such guard and immediately calls `file.open()`, which raises
`AttributeError` on `None`.  File contents are modelled as parsed records,
a missing file as `none`, and the raised exception as a `none` result. -/

/-- The two fastp counters read by `get_fastp_data`. -/
structure FastpData where
  totalReadsBefore : ℤ
  totalReadsAfter : ℤ
deriving DecidableEq

/-- `get_fastp_data`: `(0, 0)` for a missing file. -/
def get_fastp_data : Option FastpData → ℤ × ℤ
  | none => (0, 0)
  | some d => (d.totalReadsBefore, d.totalReadsAfter)

/-- The two nanoq counters read by `get_nanoq_data`. -/
structure NanoqData where
  reads : ℤ
  filtered : ℤ
deriving DecidableEq

/-- `get_nanoq_data`: `(0, 0)` for a missing file, else
`(reads + filtered, reads)`. -/
def get_nanoq_data : Option NanoqData → ℤ × ℤ
  | none => (0, 0)
  | some d => (d.reads + d.filtered, d.reads)

/-- The depletion counters `reads[0].depleted` / `reads[1].depleted` read by
`get_host_reads`. -/
structure DepletionData where
  depletedForward : ℤ
  depletedReverse : ℤ
deriving DecidableEq

/-- `get_host_reads`: `0` for a missing file; for paired-end data (neither
`ont` nor `ont_ivar`) the forward and reverse depleted counts are summed. -/
def get_host_reads (file : Option DepletionData) (ont ontIvar : Bool) : ℤ :=
  match file with
  | none => 0
  | some d =>
      if !ont && !ontIvar then d.depletedForward + d.depletedReverse
      else d.depletedForward

/-- The data line of a samtools coverage file: columns 3, 5 and 6
(`numreads`, `coverage`, `meandepth`). -/
structure CoverageFileRow where
  numreads : ℤ
  coverage : ℚ
  meandepth : ℚ
deriving DecidableEq

/-- `get_samtools_data`: NO missing-file guard — `file.open()` on `None`
raises `AttributeError` (modelled as `none`); otherwise
`(numreads, round(coverage, 4), round(meandepth, 6))`. -/
def get_samtools_data : Option CoverageFileRow → Option (ℤ × ℚ × ℚ)
  | none => none
  | some c => some (c.numreads, pyRound c.coverage 4, pyRound c.meandepth 6)

/-- The per-sample companion files after the `dict.get` lookups: the
consensus assembly content always exists, the rest are optional. -/
structure SampleFiles where
  assembly : List Char
  qcData : Option FastpData
  samtools : Option CoverageFileRow
  depletion : Option DepletionData
deriving DecidableEq

/-- The `SampleQC` record assembled by the loop body. -/
structure SampleQC where
  reads : ℤ
  qcReads : ℤ
  humanReads : ℤ
  alignedReads : ℤ
  coverage : ℚ
  meanDepth : ℚ
  missingSites : ℕ
  completeness : Option ℚ
deriving DecidableEq

/-- The loop body of `quality_control_consensus` for one sample on the
Illumina path (`ont = ont_ivar = False`): fastp, then samtools, then
consensus, then host depletion.  The whole build fails (`none`) exactly when
`get_samtools_data` raises. -/
def buildSampleQC (files : SampleFiles) : Option SampleQC :=
  match get_fastp_data files.qcData with
  | (allReads, qcReads) =>
    match get_samtools_data files.samtools with
    | none => none
    | some (alignedReads, coverage, meanDepth) =>
      match get_consensus_assembly_data files.assembly with
      | (completeness, missing) =>
        some
          { reads := allReads
            qcReads := qcReads
            humanReads := get_host_reads files.depletion false false
            alignedReads := alignedReads
            coverage := coverage
            meanDepth := meanDepth
            missingSites := missing
            completeness := completeness }

/-- C8 counterexample: a sample with a consensus assembly and a present QC
and depletion file but a missing coverage file is NOT recorded with zero
placeholders — `get_samtools_data` has no `None` guard, so the build aborts
(`none`). -/
theorem qc_missing_coverage_aborts :
    buildSampleQC ⟨['A'], some ⟨10, 8⟩, none, some ⟨1, 2⟩⟩ = none := by
  rfl

/-- C8 amended: a sample missing its read-QC JSON or its host-depletion JSON
(either one alone, or both) is tolerated — the extractor for the absent file
substitutes zero metrics and the sample is still recorded — but a missing
coverage file is not tolerated: `get_samtools_data` raises and the build
yields no record, whatever the other companion files.  The nanoq extractor
likewise substitutes zeros for a missing file. -/
theorem qc_missing_file_tolerance (assembly : List Char) (c : CoverageFileRow)
    (q : FastpData) (d : DepletionData)
    (oq : Option FastpData) (od : Option DepletionData) :
    (∃ qc, buildSampleQC ⟨assembly, none, some c, some d⟩ = some qc ∧
        qc.reads = 0 ∧ qc.qcReads = 0) ∧
    (∃ qc, buildSampleQC ⟨assembly, some q, some c, none⟩ = some qc ∧
        qc.humanReads = 0) ∧
    (∃ qc, buildSampleQC ⟨assembly, none, some c, none⟩ = some qc ∧
        qc.reads = 0 ∧ qc.qcReads = 0 ∧ qc.humanReads = 0) ∧
    buildSampleQC ⟨assembly, oq, none, od⟩ = none ∧
    get_nanoq_data none = (0, 0) := by
  refine ⟨⟨_, rfl, rfl, rfl⟩, ⟨_, rfl, rfl⟩, ⟨_, rfl, rfl, rfl, rfl⟩, ?_, rfl⟩
  cases oq <;> cases od <;> rfl

/-! ## Population summary

`get_variant_pop_summary` (report/report.py lines 522-544) computes the
number of distinct samples, groups the annotated table by
`(POS, REF, ALT)`, and for each group keeps the first row with the per-sample
numeric columns dropped (`REF_DP`, ..., `ALT_FREQ`, `ALT_DP`, `PASS`,
`SAMPLE`, ...), adding `POP_COUNT = len(group)` and
`POP_FREQ = len(group)/samples`.  Dropping the per-sample columns is the
projection of `VariantRow` onto `PopSummaryRow`. -/

/-- A row of the population summary: the grouping key, the representative
row's annotation fields, and the two population columns. -/
structure PopSummaryRow where
  pos : ℤ
  ref : String
  alt : String
  annot : String
  popCount : ℕ
  popFreq : ℚ
deriving DecidableEq

/-- The pandas grouping key `(POS, REF, ALT)`. -/
def variantKey (v : VariantRow) : ℤ × String × String := (v.pos, v.ref, v.alt)

/-- `samples = len(variants["SAMPLE"].unique())`. -/
def nSamples (variants : List VariantRow) : ℕ :=
  ((variants.map VariantRow.sample).dedup).length

/-- The summary row built for one grouping key: the rows with that key, the
first as representative (`data.iloc[0]`) with per-sample numeric fields
dropped, `POP_COUNT` the group size, `POP_FREQ` the group size over the
distinct-sample count.  `none` for a key grouping no rows (pandas `groupby`
only produces nonempty groups). -/
def popSummaryRowFor (variants : List VariantRow) (k : ℤ × String × String) :
    Option PopSummaryRow :=
  match variants.filter (fun v => decide (variantKey v = k)) with
  | [] => none
  | rep :: rest =>
      some ⟨rep.pos, rep.ref, rep.alt, rep.annot, (rep :: rest).length,
            ((rep :: rest).length : ℚ) / (nSamples variants : ℚ)⟩

/-- `get_variant_pop_summary` (iVar path): one summary row per distinct
`(POS, REF, ALT)` key of the table. -/
def get_variant_pop_summary (variants : List VariantRow) : List PopSummaryRow :=
  ((variants.map variantKey).dedup).filterMap (popSummaryRowFor variants)

/-- Helper: over a list of keys each grouping at least one row, the summary
keys reproduce the key list exactly. -/
theorem pop_summary_keys (variants : List VariantRow) :
    ∀ l : List (ℤ × String × String),
      (∀ k ∈ l, ∃ v ∈ variants, variantKey v = k) →
      (l.filterMap (popSummaryRowFor variants)).map (fun e => (e.pos, e.ref, e.alt)) = l := by
  intro l
  induction l with
  | nil => intro _; rfl
  | cons k ks ih =>
      intro h
      rcases h k (List.mem_cons_self k ks) with ⟨v, hv, hkey⟩
      have hvfil : v ∈ variants.filter (fun w => decide (variantKey w = k)) := by
        simp [List.mem_filter, hv, hkey]
      cases hfil : variants.filter (fun w => decide (variantKey w = k)) with
      | nil => rw [hfil] at hvfil; cases hvfil
      | cons rep rest =>
          have hrep : variantKey rep = k := by
            have hmem : rep ∈ variants.filter (fun w => decide (variantKey w = k)) := by
              rw [hfil]; exact List.mem_cons_self rep rest
            simpa using (List.mem_filter.mp hmem).2
          rw [List.filterMap_cons]
          have hfk : popSummaryRowFor variants k
              = some ⟨rep.pos, rep.ref, rep.alt, rep.annot, (rep :: rest).length,
                  ((rep :: rest).length : ℚ) / (nSamples variants : ℚ)⟩ := by
            unfold popSummaryRowFor
            rw [hfil]
          rw [hfk]
          simp only [List.map_cons]
          rw [ih fun k' hk' => h k' (List.mem_cons_of_mem k hk')]
          have : (rep.pos, rep.ref, rep.alt) = k := by
            simpa [variantKey] using hrep
          rw [this]

/-- C6: the population summary has exactly one row per distinct
`(POS, REF, ALT)` key of the variant table (in particular one for the key of
any given row `v`), and every summary row carries `POP_COUNT` equal to the
number of table rows in its group, `POP_FREQ` equal to that count divided by
the number of distinct samples, and the annotation field of the group's first
row, the per-sample numeric fields being dropped by construction of
`PopSummaryRow`. -/
theorem pop_summary_correct (variants : List VariantRow) (v : VariantRow)
    (hv : v ∈ variants) :
    ((get_variant_pop_summary variants).map (fun e => (e.pos, e.ref, e.alt)))
        = (variants.map variantKey).dedup ∧
    (∃ e ∈ get_variant_pop_summary variants, (e.pos, e.ref, e.alt) = variantKey v) ∧
    (∀ e ∈ get_variant_pop_summary variants,
      ∃ rep rest,
        variants.filter (fun w => decide (variantKey w = (e.pos, e.ref, e.alt)))
          = rep :: rest ∧
        e.annot = rep.annot ∧
        e.popCount = (rep :: rest).length ∧
        e.popFreq = ((rep :: rest).length : ℚ) / (nSamples variants : ℚ)) := by
  refine ⟨?_, ?_, ?_⟩
  · exact pop_summary_keys variants _ fun k hk => by
      rcases List.mem_map.mp (List.mem_dedup.mp hk) with ⟨w, hw, hwk⟩
      exact ⟨w, hw, hwk⟩
  · have hk : variantKey v ∈ (variants.map variantKey).dedup :=
      List.mem_dedup.mpr (List.mem_map_of_mem variantKey hv)
    have hvfil : v ∈ variants.filter (fun w => decide (variantKey w = variantKey v)) := by
      simp [List.mem_filter, hv]
    cases hfil : variants.filter (fun w => decide (variantKey w = variantKey v)) with
    | nil => rw [hfil] at hvfil; cases hvfil
    | cons rep rest =>
        have hrep : variantKey rep = variantKey v := by
          have hmem : rep ∈ variants.filter (fun w => decide (variantKey w = variantKey v)) := by
            rw [hfil]; exact List.mem_cons_self rep rest
          simpa using (List.mem_filter.mp hmem).2
        refine ⟨⟨rep.pos, rep.ref, rep.alt, rep.annot, (rep :: rest).length,
            ((rep :: rest).length : ℚ) / (nSamples variants : ℚ)⟩, ?_, ?_⟩
        · refine List.mem_filterMap.mpr ⟨variantKey v, hk, ?_⟩
          unfold popSummaryRowFor
          rw [hfil]
        · simpa [variantKey] using hrep
  · intro e he
    rcases List.mem_filterMap.mp he with ⟨k, _, hfk⟩
    unfold popSummaryRowFor at hfk
    cases hfil : variants.filter (fun w => decide (variantKey w = k)) with
    | nil => rw [hfil] at hfk; cases hfk
    | cons rep rest =>
        rw [hfil] at hfk
        have hrep : variantKey rep = k := by
          have hmem : rep ∈ variants.filter (fun w => decide (variantKey w = k)) := by
            rw [hfil]; exact List.mem_cons_self rep rest
          simpa using (List.mem_filter.mp hmem).2
        have he' : e = ⟨rep.pos, rep.ref, rep.alt, rep.annot, (rep :: rest).length,
            ((rep :: rest).length : ℚ) / (nSamples variants : ℚ)⟩ :=
          (Option.some_inj.mp hfk).symm
        have hkeq : (e.pos, e.ref, e.alt) = k := by
          rw [he']
          simpa [variantKey] using hrep
        refine ⟨rep, rest, ?_, ?_, ?_, ?_⟩
        · rw [hkeq]; exact hfil
        · rw [he']
        · rw [he']
        · rw [he']

/-- A one-row table for the C6 witness. -/
def exampleTable : List VariantRow :=
  [⟨100, "C", "T", "s1", 1/2, 50, "x"⟩]

/-- Witness for C6 on a concrete one-row table. -/
theorem pop_summary_correct_witness :
    ((get_variant_pop_summary exampleTable).map (fun e => (e.pos, e.ref, e.alt)))
        = (exampleTable.map variantKey).dedup ∧
    (∃ e ∈ get_variant_pop_summary exampleTable,
        (e.pos, e.ref, e.alt) = variantKey ⟨100, "C", "T", "s1", 1/2, 50, "x"⟩) ∧
    (∀ e ∈ get_variant_pop_summary exampleTable,
      ∃ rep rest,
        exampleTable.filter (fun w => decide (variantKey w = (e.pos, e.ref, e.alt)))
          = rep :: rest ∧
        e.annot = rep.annot ∧
        e.popCount = (rep :: rest).length ∧
        e.popFreq = ((rep :: rest).length : ℚ) / (nSamples exampleTable : ℚ)) :=
  pop_summary_correct exampleTable ⟨100, "C", "T", "s1", 1/2, 50, "x"⟩
    (by simp [exampleTable])

end MpxVidrl
